import Mathlib

/-!
Verification of the LinguaScope content-analysis pipeline.

The development shallowly embeds the pipeline core of the repository:
the job orchestrator (`handleJobSubmit` with its reducer `jobReducer`),
the API-service helpers (`stripMarkdown`, `detectLanguage`,
`performAnalysis`, `translateAnalysis`) and their proxied counterparts.
Network calls to the LLM provider and DOM operations are modelled as
explicit parameters (the response text, or an `Except` capturing a
thrown error), so every function here is a total, executable Lean
definition.  String-level operations mirror the JavaScript source on the
character-list view of strings; JavaScript's `\s`, `\w` classes and
`trim`/`toLowerCase` are modelled on their ASCII parts, which is the
fragment the embedded regular expressions can distinguish on the inputs
considered here.
-/

namespace LinguaScope

/-! ## JavaScript string primitives -/

/-- Characters matched by the JavaScript regex class `\s` (ASCII part). -/
def isSpaceChar (c : Char) : Bool :=
  c = ' ' || c = '\t' || c = '\n' || c = '\r' || c = '\x0b' || c = '\x0c'

/-- Characters matched by the JavaScript regex class `\w`. -/
def isWordChar (c : Char) : Bool :=
  ('a' ≤ c && c ≤ 'z') || ('A' ≤ c && c ≤ 'Z') || ('0' ≤ c && c ≤ '9') || c = '_'

/-- JavaScript `String.prototype.trim`, on the character-list view. -/
def jsTrim (l : List Char) : List Char :=
  ((l.dropWhile isSpaceChar).reverse.dropWhile isSpaceChar).reverse

/-- JavaScript `String.prototype.toLowerCase`, ASCII part. -/
def asciiLower (c : Char) : Char :=
  if 'A' ≤ c && c ≤ 'Z' then Char.ofNat (c.toNat + 32) else c

/-- Prepends a character to the first segment of a list of segments
(the accumulator step shared by the split functions below). -/
def consHead (c : Char) : List (List Char) → List (List Char)
  | [] => [[c]]
  | b :: bs => (c :: b) :: bs

/-- JavaScript `s.split('\n')` on the character-list view. -/
def splitLinesList : List Char → List (List Char)
  | [] => [[]]
  | '\n' :: rest => [] :: splitLinesList rest
  | c :: rest => consHead c (splitLinesList rest)

/-- Drops a leading run of newline characters. -/
def dropNewlines : List Char → List Char
  | [] => []
  | c :: rest => if c = '\n' then dropNewlines rest else c :: rest

theorem dropNewlines_length_le (l : List Char) : (dropNewlines l).length ≤ l.length := by
  induction l with
  | nil => simp [dropNewlines]
  | cons c rest ih =>
    rw [dropNewlines]
    split
    · simp only [List.length_cons]; omega
    · simp

/-- JavaScript `value.split(/\n{2,}/)`: split at every maximal run of two
or more newline characters, on the character-list view. -/
def splitBlocksList : List Char → List (List Char)
  | [] => [[]]
  | '\n' :: '\n' :: rest => [] :: splitBlocksList (dropNewlines rest)
  | c :: rest => consHead c (splitBlocksList rest)
termination_by l => l.length
decreasing_by
  · have := dropNewlines_length_le rest
    simp; omega
  · simp

theorem consHead_ne_nil (c : Char) (bs : List (List Char)) : consHead c bs ≠ [] := by
  cases bs <;> simp [consHead]

theorem splitBlocksList_cons (c : Char) (rest : List Char)
    (h : ¬(c = '\n' ∧ ∃ r', rest = '\n' :: r')) :
    splitBlocksList (c :: rest) = consHead c (splitBlocksList rest) := by
  rw [splitBlocksList.eq_def]
  split
  · simp at *
  · rename_i heq
    injection heq with h1 h2
    exact absurd ⟨h1, _, h2⟩ h
  · rename_i heq
    injection heq with h1 h2
    rw [h1, h2]

theorem splitBlocksList_ne_nil (l : List Char) : splitBlocksList l ≠ [] := by
  induction l using splitBlocksList.induct with
  | case1 => simp [splitBlocksList]
  | case2 rest ih => simp [splitBlocksList]
  | case3 c rest h1 ih =>
    rw [splitBlocksList_cons c rest (fun h => h.2.elim (fun r' hr => h1 r' h.1 hr))]
    exact consHead_ne_nil c _

theorem splitLinesList_ne_nil (l : List Char) : splitLinesList l ≠ [] := by
  induction l with
  | nil => simp [splitLinesList]
  | cons c rest ih =>
    by_cases h : c = '\n'
    · subst h; simp [splitLinesList]
    · rw [splitLinesList.eq_def]
      split
      · simp
      · simp
      · exact consHead_ne_nil _ _

/-! ## `stripMarkdown`

The helper strips an optional markdown code fence from a model response:
`text.trim()` is matched against `/^```(?:\w+)?\s*([\s\S]*?)\s*```$/` and,
when the captured group is non-empty, the group (trimmed) is returned.
The matcher below implements this one regex operationally, following the
backtracking priorities of the JavaScript engine: the optional `\w+` is
tried longest-first, then `\s*` longest-first, then the lazy group
shortest-first, and `\s*```$` anchors the tail to the end of the string. -/

/-- Holds when the remaining input can be consumed by `\s*```$`:
it ends with three backticks preceded only by whitespace. -/
def tailFenceOk (r : List Char) : Bool :=
  r.reverse.take 3 = ['`', '`', '`'] && (r.take (r.length - 3)).all isSpaceChar

/-- Lazy search for the capture group: try the shortest prefix `g` such
that the rest of the input matches `\s*```$`. -/
def findLazy (g : List Char) (rest : List Char) : Option (List Char) :=
  if tailFenceOk rest then some g
  else
    match rest with
    | [] => none
    | c :: rs => findLazy (g ++ [c]) rs

/-- Tries `\s*` lengths from `slen` (the greedy choice) down to zero. -/
def trySpacesFrom (r : List Char) : Nat → Option (List Char)
  | 0 => findLazy [] r
  | n + 1 => (findLazy [] (r.drop (n + 1))).orElse (fun _ => trySpacesFrom r n)

/-- Tries `(?:\w+)?` lengths from `wlen` (the greedy choice) down to zero;
`rest` is the input following the opening fence. -/
def tryFenceFrom (rest : List Char) : Nat → Option (List Char)
  | 0 =>
      trySpacesFrom rest (rest.takeWhile isSpaceChar).length
  | wlen + 1 =>
      (trySpacesFrom (rest.drop (wlen + 1))
          ((rest.drop (wlen + 1)).takeWhile isSpaceChar).length).orElse
        (fun _ => tryFenceFrom rest wlen)

/-- Matches `/^```(?:\w+)?\s*([\s\S]*?)\s*```$/` against the whole input
and returns the captured group when the match succeeds. -/
def fenceInner : List Char → Option (List Char)
  | '`' :: '`' :: '`' :: rest => tryFenceFrom rest (rest.takeWhile isWordChar).length
  | _ => none

/-- Model of `stripMarkdown` on the character-list view: trims, matches the
fence regex, and returns the trimmed capture when it is non-empty
(JavaScript's `match && match[1]` treats an empty capture as falsy). -/
def stripMarkdownL (text : List Char) : List Char :=
  let t := jsTrim text
  match fenceInner t with
  | some inner => if inner.isEmpty then t else jsTrim inner
  | none => t

/-- Model of `stripMarkdown` (identical in the direct-call service and the
proxy: both trim, match the fence regex and return the trimmed capture). -/
def stripMarkdown (text : String) : String :=
  String.mk (stripMarkdownL text.data)

/-! ## Language detection

`detectLanguage` extracts a text sample, asks the model for a two-letter
code, and coerces any non-conforming answer to `'en'`.  The DOM text
extraction of the direct-call variant and the model call are external
effects; they enter the model as explicit `Except` parameters (a thrown
error, or the value produced).  The proxied variant's text extraction is
the repository's own regex `contentHtml.replace(/<[^>]*>/g, '')`, which
is implemented concretely below. -/

theorem length_dropWhile_le (p : Char → Bool) (l : List Char) :
    (l.dropWhile p).length ≤ l.length := by
  induction l with
  | nil => simp [List.dropWhile]
  | cons c rest ih =>
    rw [List.dropWhile]
    split
    · simp only [List.length_cons]; omega
    · simp

theorem length_tail_le (l : List Char) : l.tail.length ≤ l.length := by
  cases l <;> simp

/-- JavaScript `s.replace(/<[^>]*>/g, '')`: removes every substring that
starts at a `<`, runs over non-`>` characters and ends at a `>`; a `<`
never followed by `>` is kept. -/
def stripTagsList : List Char → List Char
  | [] => []
  | c :: rest =>
      if c = '<' then
        if '>' ∈ rest then stripTagsList ((rest.dropWhile (· ≠ '>')).tail)
        else c :: stripTagsList rest
      else c :: stripTagsList rest
termination_by l => l.length
decreasing_by
  · have h1 := length_dropWhile_le (fun x => decide (x ≠ '>')) rest
    have h2 := length_tail_le (rest.dropWhile (fun x => decide (x ≠ '>')))
    simp only [List.length_cons]
    omega
  · simp
  · simp

/-- Normalization applied to the model's reply in both detector variants:
`response.text.trim().toLowerCase()`. -/
def normalizeLangReply (responseText : String) : String :=
  String.mk ((jsTrim responseText.data).map asciiLower)

/-- Test of the regex `/^[a-z]{2}$/`. -/
def isTwoLowerAlpha (s : String) : Bool :=
  match s.data with
  | [a, b] => ('a' ≤ a && a ≤ 'z') && ('a' ≤ b && b ≤ 'z')
  | _ => false

/-- Coercion of the detector reply shared by both variants: a reply whose
trimmed, lowercased form is exactly two lowercase letters is returned in
that form; anything else falls back to `'en'`. -/
def coerceLangCode (responseText : String) : String :=
  let langCode := normalizeLangReply responseText
  if isTwoLowerAlpha langCode then langCode else "en"

/-- Direct-call `detectLanguage`.  `extractResult` stands for
`extractTextSample(contentHtml)` (a DOM operation that may throw);
`modelResult` stands for the awaited model call.  The function body is a
`try`/`catch` whose catch-all resolves with `'en'`, so the result is a
plain `String`: this variant never rejects. -/
def detectLanguage (extractResult : Except String String)
    (modelResult : Except String String) : String :=
  match extractResult with
  | .error _ => "en"
  | .ok textContent =>
      if textContent.isEmpty then "ko"
      else
        match modelResult with
        | .error _ => "en"
        | .ok responseText => coerceLangCode responseText

/-- Text sample extraction of the proxied `detectLanguage`:
`contentHtml.replace(/<[^>]*>/g, '').trim().substring(0, 1000)`. -/
def proxyTextSample (contentHtml : String) : String :=
  String.mk ((jsTrim (stripTagsList contentHtml.data)).take 1000)

/-- Proxied `detectLanguage` (the handler in `api/proxy.ts`): the text
sample is computed by the concrete tag-stripping regex; the model call is
the `responseText` parameter.  This variant has no `try`/`catch`, but its
body after the extraction cannot throw. -/
def proxyDetectLanguage (contentHtml : String) (responseText : String) : String :=
  if (proxyTextSample contentHtml).isEmpty then "ko"
  else coerceLangCode responseText

/-! ## JSON values and the analysis client

`performAnalysis` parses the (fence-stripped) model response with
`JSON.parse` and checks the truthiness of five required fields.
`JSON.parse` is a platform primitive, so it enters the model as a
parameter `parseJson : String → Option Json` (`none` standing for a
thrown `SyntaxError`); everything after the parse is repository logic and
is modelled concretely. -/

/-- JSON values (numbers restricted to integers; no claim here depends on
fractional numerics). `obj` field lists are as produced by `JSON.parse`,
which yields objects without duplicate keys. -/
inductive Json where
  | null : Json
  | bool (b : Bool) : Json
  | num (n : Int) : Json
  | str (s : String) : Json
  | arr (elems : List Json) : Json
  | obj (fields : List (String × Json)) : Json

/-- JavaScript truthiness of a JSON value (an empty array is truthy). -/
def jsTruthy : Json → Bool
  | .null => false
  | .bool b => b
  | .num n => n != 0
  | .str s => !s.isEmpty
  | .arr _ => true
  | .obj _ => true

/-- Property lookup `j[key]` on a parsed JSON value: only objects carry
named properties; a missing property is `undefined`. -/
def jsonGet (j : Json) (key : String) : Option Json :=
  match j with
  | .obj fields => (fields.find? (fun f => f.1 = key)).map (·.2)
  | _ => none

/-- Truthiness of `j[key]`, with `undefined` falsy. -/
def fieldTruthy (j : Json) (key : String) : Bool :=
  match jsonGet j key with
  | some v => jsTruthy v
  | none => false

/-- Check `!r.title || !r.oneLineSummary || !r.keyPoints || !r.keyPlayers
|| !r.keywords` performed by the direct-call `performAnalysis`. -/
def requiredFieldsOk (j : Json) : Bool :=
  fieldTruthy j "title" && fieldTruthy j "oneLineSummary" && fieldTruthy j "keyPoints" &&
    fieldTruthy j "keyPlayers" && fieldTruthy j "keywords"

/-- Occurrence of `needle` as a contiguous run inside `hay`. -/
def includesList (hay needle : List Char) : Bool :=
  needle.isPrefixOf hay ||
    match hay with
    | [] => false
    | _ :: t => includesList t needle

/-- JavaScript `s.includes(sub)`. -/
def includesStr (s sub : String) : Bool :=
  includesList s.data sub.data

/-- Body of the direct-call `performAnalysis` `try` block after the model
call: strip the fence, parse, check the required fields. -/
def performAnalysisCore (parseJson : String → Option Json)
    (responseText : String) : Except String Json :=
  match parseJson (stripMarkdown responseText) with
  | none => .error "AI 분석 실패: AI가 유효한 JSON 형식을 반환하지 않았습니다."
  | some j =>
      if !requiredFieldsOk j then .error "AI analysis response is missing required fields."
      else .ok j

/-- Direct-call `performAnalysis`: the `catch` block rewraps any error
whose message mentions `JSON` or `object`, and prefixes the rest. -/
def performAnalysis (parseJson : String → Option Json)
    (responseText : String) : Except String Json :=
  match performAnalysisCore parseJson responseText with
  | .ok j => .ok j
  | .error msg =>
      if includesStr msg "JSON" || includesStr msg "object" then
        .error "AI 분석 실패: AI가 유효한 JSON을 반환하지 않았습니다."
      else .error ("AI 분석 실패: " ++ msg)

/-- Proxied `performAnalysis` (`api/proxy.ts`): parses the fence-stripped
response and returns the parsed value with no required-field check; a
parse failure propagates to the endpoint handler, which answers HTTP 500
with the platform's `SyntaxError` message (its exact text is
platform-defined). -/
def proxyPerformAnalysis (parseJson : String → Option Json)
    (responseText : String) : Except String Json :=
  match parseJson (stripMarkdown responseText) with
  | none => .error "SyntaxError"
  | some j => .ok j

/-! ## The translation client's analysis merge

Both variants of `translateAnalysis` end with
`return { ...analysis, ...translatedContent }`, where `translatedContent`
is `JSON.parse` of the (fence-stripped) model response.  The spread merge
is modelled on JSON object field lists. -/

/-- Own enumerable properties contributed by `...v` in an object literal:
objects contribute their fields, arrays and strings their indexed
elements, primitives nothing. -/
def spreadProps : Json → List (String × Json)
  | .obj fields => fields
  | .arr elems => (List.range elems.length).zip elems |>.map (fun p => (toString p.1, p.2))
  | .str s => (List.range s.data.length).zip s.data |>.map
      (fun p => (toString p.1, Json.str (String.mk [p.2])))
  | _ => []

/-- JavaScript object-literal merge `{ ...a, ...b }`: keys of `a` in
order, each overridden by `b` when present, followed by the keys of `b`
not in `a`, in order. -/
def jsMerge (a b : List (String × Json)) : List (String × Json) :=
  (a.map (fun f => (f.1, match b.find? (fun g => g.1 = f.1) with
    | some g => g.2
    | none => f.2)))
  ++ b.filter (fun g => (a.find? (fun f => f.1 = g.1)).isNone)

/-- Analysis record produced by the analysis step (`types.ts`
`AnalysisOutput`). -/
structure AnalysisOutput where
  title : String
  oneLineSummary : String
  keyPoints : List String
  keyPlayers : List String
  keywords : List String
deriving DecidableEq

/-- View of an `AnalysisOutput` as the JavaScript object the orchestrator
holds, in declaration order of `types.ts`. -/
def analysisToObj (a : AnalysisOutput) : List (String × Json) :=
  [("title", Json.str a.title),
   ("oneLineSummary", Json.str a.oneLineSummary),
   ("keyPoints", Json.arr (a.keyPoints.map Json.str)),
   ("keyPlayers", Json.arr (a.keyPlayers.map Json.str)),
   ("keywords", Json.arr (a.keywords.map Json.str))]

/-- Shared tail of both `translateAnalysis` variants: parse the
fence-stripped response and spread it over the original analysis object.
A parse failure is rethrown (direct variant prefixes its message; only
success values matter to the claims below). -/
def translateAnalysis (parseJson : String → Option Json)
    (analysis : AnalysisOutput) (responseText : String) :
    Except String (List (String × Json)) :=
  match parseJson (stripMarkdown responseText) with
  | none => .error "AI 분석 번역 실패: SyntaxError"
  | some j => .ok (jsMerge (analysisToObj analysis) (spreadProps j))

/-! ## The job orchestrator

`App.tsx` drives one job through a reducer-managed state machine.
`handleJobSubmit` is modelled as a pure function from the submission, the
two `performance.now()` readings and the outcome of each awaited network
call to the list of actions it dispatches; `jobReducer` is the exact
reducer.  Each awaited call is an `Except String` value: `.error` stands
for a rejected promise (its message), `.ok` for the resolved value.  The
two translation calls run under one `Promise.all`; when both reject, the
message surfaced depends on timing, and this model surfaces the
analysis-translation one — no claim distinguishes the two. -/

/-- Job status enumeration (`types.ts`). -/
inductive JobStatus where
  | queued | extracting | detectingLanguage | analyzing | translating | completed | failed
deriving DecidableEq, Repr

/-- UI state enumeration (`types.ts`). -/
inductive UiState where
  | default | processing | complete | error
deriving DecidableEq, Repr

/-- Output bundle of a finished job (`types.ts` `JobResult.outputs`). -/
structure JobOutputs where
  oneLineSummary : String
  keyPoints : List String
  keyPlayers : List String
  keywords : List String
  fullTranslation : String
deriving DecidableEq

/-- Terminal job record (`types.ts` `JobResult`); `processingTimeTotal`
is in seconds. -/
structure JobResult where
  title : String
  originalUrl : String
  originalContent : String
  processingTimeTotal : ℚ
  outputs : JobOutputs
deriving DecidableEq

/-- Reducer state (`App.tsx` `State`). -/
structure State where
  uiState : UiState
  jobStatus : Option JobStatus
  currentResult : Option JobResult
  error : Option String
  inputValue : String
  jobStartTime : Option ℚ
deriving DecidableEq

/-- Reducer actions (`App.tsx` `Action`). -/
inductive Action where
  | jobStart (value : String) (startTime : ℚ)
  | jobProgress (status : JobStatus)
  | jobSuccess (result : JobResult)
  | jobError (error : String)
  | reset
deriving DecidableEq

/-- Initial reducer state (`App.tsx` `initialState`). -/
def initialState : State :=
  { uiState := .default, jobStatus := none, currentResult := none,
    error := none, inputValue := "", jobStartTime := none }

/-- The reducer `jobReducer` of `App.tsx`, case for case. -/
def jobReducer (state : State) (action : Action) : State :=
  match action with
  | .jobStart value startTime =>
      { initialState with
        uiState := .processing, inputValue := value,
        jobStartTime := some startTime, jobStatus := some .queued }
  | .jobProgress status => { state with jobStatus := some status }
  | .jobSuccess result =>
      { state with
        uiState := .complete, jobStatus := some .completed,
        currentResult := some result, error := none }
  | .jobError error =>
      { state with uiState := .error, jobStatus := some .failed, error := some error }
  | .reset => initialState

/-- Folds the dispatched actions through the reducer. -/
def applyActions (actions : List Action) : State :=
  actions.foldl jobReducer initialState

/-- Input mode of the submission form (`UrlInputForm.tsx`). -/
inductive InputMode where
  | url | text
deriving DecidableEq

/-- Raw-text normalization of `handleJobSubmit`: split the pasted value at
blank-line runs, join each block's lines with `<br>`, and wrap each block
in `<p>…</p>`. -/
def wrapBlock (p : List Char) : List Char :=
  "<p>".data ++ List.intercalate "<br>".data (splitLinesList p) ++ "</p>".data

/-- Paragraph wrappers produced for a raw-text submission, one per
segment of the `\n{2,}` split. -/
def paragraphWrappers (value : String) : List String :=
  (splitBlocksList value.data).map (fun b => String.mk (wrapBlock b))

/-- Normalized content of a raw-text submission: the wrappers joined. -/
def normalizeText (value : String) : String :=
  String.mk (((splitBlocksList value.data).map wrapBlock).flatten)

/-- Outcome of each awaited network call made by one job, as resolved
(`.ok`) or rejected (`.error`) promises. -/
structure JobCalls where
  fetchUrl : Except String String
  detect : String → Except String String
  analyze : String → Except String AnalysisOutput
  translateA : AnalysisOutput → Except String AnalysisOutput
  translateC : String → Except String String

/-- Result record assembled on job completion (`App.tsx` lines 127–139). -/
def mkJobResult (finalAnalysis : AnalysisOutput) (finalUrl content fullTranslation : String)
    (jobStart jobEnd : ℚ) : JobResult :=
  { title := finalAnalysis.title,
    originalUrl := finalUrl,
    originalContent := content,
    processingTimeTotal := (jobEnd - jobStart) / 1000,
    outputs :=
      { oneLineSummary := finalAnalysis.oneLineSummary,
        keyPoints := finalAnalysis.keyPoints,
        keyPlayers := finalAnalysis.keyPlayers,
        keywords := finalAnalysis.keywords,
        fullTranslation := fullTranslation } }

/-- Steps of `handleJobSubmit` shared by both input modes, from the
language-detection dispatch onward. -/
def afterExtract (content finalUrl : String) (jobStart jobEnd : ℚ)
    (calls : JobCalls) : List Action :=
  Action.jobProgress .detectingLanguage ::
  match calls.detect content with
  | .error e => [Action.jobError e]
  | .ok language =>
      Action.jobProgress .analyzing ::
      match calls.analyze content with
      | .error e => [Action.jobError e]
      | .ok rawAnalysis =>
          if language = "ko" then
            [Action.jobSuccess (mkJobResult rawAnalysis finalUrl content content jobStart jobEnd)]
          else
            Action.jobProgress .translating ::
            match calls.translateA rawAnalysis, calls.translateC content with
            | .ok translatedAnalysis, .ok translatedContent =>
                [Action.jobSuccess
                  (mkJobResult translatedAnalysis finalUrl content translatedContent
                    jobStart jobEnd)]
            | .error e, _ => [Action.jobError e]
            | .ok _, .error e => [Action.jobError e]

/-- The orchestrator `handleJobSubmit` of `App.tsx`, as the list of
actions it dispatches.  URL mode dispatches `extracting` and awaits the
fetch; text mode normalizes locally; both then run `afterExtract`. -/
def handleJobSubmit (mode : InputMode) (value : String) (jobStart jobEnd : ℚ)
    (calls : JobCalls) : List Action :=
  Action.jobStart value jobStart ::
  match mode with
  | .url =>
      Action.jobProgress .extracting ::
      match calls.fetchUrl with
      | .error e => [Action.jobError e]
      | .ok content => afterExtract content value jobStart jobEnd calls
  | .text => afterExtract (normalizeText value) "" jobStart jobEnd calls

/-- Status carried by one dispatched action (every action of
`handleJobSubmit` sets one). -/
def actionStatus : Action → Option JobStatus
  | .jobStart _ _ => some .queued
  | .jobProgress s => some s
  | .jobSuccess _ => some .completed
  | .jobError _ => some .failed
  | .reset => none

/-- Sequence of job statuses a run publishes, in dispatch order. -/
def publishedStatuses (actions : List Action) : List JobStatus :=
  actions.filterMap actionStatus

/-- Content the job works on: the fetch result in URL mode, the local
normalization in text mode. -/
def jobContent (mode : InputMode) (value : String)
    (calls : JobCalls) : Except String String :=
  match mode with
  | .url => calls.fetchUrl
  | .text => .ok (normalizeText value)

/-- Detected language of a run whose extraction step succeeded. -/
def jobLanguage (mode : InputMode) (value : String)
    (calls : JobCalls) : Except String String :=
  match jobContent mode value calls with
  | .error e => .error e
  | .ok content => calls.detect content

/-- Holds when a run dispatched a success action. -/
def jobSucceeded (actions : List Action) : Bool :=
  actions.any (fun a => match a with | .jobSuccess _ => true | _ => false)

/-! ## Claims about language detection -/

theorem isEmpty_false_of_ne (t : String) (ht : t ≠ "") : t.isEmpty = false := by
  cases h : t.isEmpty
  · rfl
  · exact absurd ((String.isEmpty_iff t).mp h) ht

/-- Claim C5: for every model response string, the language detector
returns the (trimmed, lowercased) response as the language code when it
matches exactly two lowercase letters, and otherwise returns the fixed
fallback code `'en'`; a non-matching response is coerced, never
propagated as an error, in both the direct-call and the proxied
variant. -/
theorem detect_lang_coercion (responseText : String) :
    (isTwoLowerAlpha (normalizeLangReply responseText) = true →
      coerceLangCode responseText = normalizeLangReply responseText) ∧
    (isTwoLowerAlpha (normalizeLangReply responseText) = false →
      coerceLangCode responseText = "en") ∧
    (∀ extractedText : String, extractedText ≠ "" →
      detectLanguage (.ok extractedText) (.ok responseText) = coerceLangCode responseText) ∧
    (∀ contentHtml : String, (proxyTextSample contentHtml).isEmpty = false →
      proxyDetectLanguage contentHtml responseText = coerceLangCode responseText) := by
  refine ⟨?_, ?_, ?_, ?_⟩
  · intro h; simp [coerceLangCode, h]
  · intro h; simp [coerceLangCode, h]
  · intro t ht
    simp [detectLanguage, isEmpty_false_of_ne t ht]
  · intro c hc
    simp [proxyDetectLanguage, hc]

/-- Witness for C5 at concrete inputs: the reply `"English"` does not
match `[a-z]{2}` and is coerced to `'en'` rather than failing. -/
theorem detect_lang_coercion_witness :
    isTwoLowerAlpha (normalizeLangReply "English") = false ∧
    coerceLangCode "English" = "en" ∧
    detectLanguage (.ok "hi") (.ok "English") = coerceLangCode "English" := by
  refine ⟨by decide, (detect_lang_coercion "English").2.1 (by decide), ?_⟩
  exact (detect_lang_coercion "English").2.2.1 "hi" (by decide)

/-- Claim C9: when the extracted text sample of the content is empty,
both detector variants return the target display language code `'ko'`
without consulting the model: the result is the same for every value of
the model-call parameter, so no call is observable.  The orchestrator
then skips translation, which claim C1's theorem records
(`translating` is published iff the detected code differs from
`'ko'`). -/
theorem detect_empty_sample_short_circuit (contentHtml : String)
    (h : (proxyTextSample contentHtml).isEmpty = true) :
    (∀ modelReply : String, proxyDetectLanguage contentHtml modelReply = "ko") ∧
    (∀ modelResult : Except String String, detectLanguage (.ok "") modelResult = "ko") := by
  constructor
  · intro r; simp [proxyDetectLanguage, h]
  · intro m
    have hempt : "".isEmpty = true := rfl
    simp [detectLanguage, hempt]

/-- Witness for C9: the content `"<p> </p>"` strips to whitespace only,
so its sample is empty and the proxied detector answers `'ko'`. -/
theorem detect_empty_sample_witness :
    (proxyTextSample "<p> </p>").isEmpty = true ∧
    proxyDetectLanguage "<p> </p>" "en" = "ko" := by
  have he : (proxyTextSample "<p> </p>").isEmpty = true := by
    simp [proxyTextSample, stripTagsList, jsTrim, isSpaceChar]
    decide
  exact ⟨he, (detect_empty_sample_short_circuit "<p> </p>" he).1 "en"⟩

/-- Claim C10: the direct-call `detectLanguage` never rejects.  Its
result type in this embedding is a plain `String` (not `Except`), and:
a thrown extraction error resolves to `'en'`; a thrown model-call error
resolves to `'en'`; in every case the result is `'ko'`, `'en'`, or the
coerced model reply.  A language-detection failure therefore cannot move
the job to the `failed` state. -/
theorem detectLanguage_never_rejects (extractResult modelResult : Except String String) :
    (∀ e, extractResult = .error e → detectLanguage extractResult modelResult = "en") ∧
    (∀ t e, extractResult = .ok t → modelResult = .error e → t ≠ "" →
      detectLanguage extractResult modelResult = "en") ∧
    (detectLanguage extractResult modelResult = "ko" ∨
     detectLanguage extractResult modelResult = "en" ∨
     ∃ r, modelResult = .ok r ∧
       detectLanguage extractResult modelResult = coerceLangCode r) := by
  refine ⟨?_, ?_, ?_⟩
  · rintro e rfl; simp [detectLanguage]
  · rintro t e rfl rfl ht
    simp [detectLanguage, isEmpty_false_of_ne t ht]
  · rcases extractResult with e | t
    · simp [detectLanguage]
    · rcases modelResult with e | r
      · simp only [detectLanguage]
        split
        · simp
        · simp
      · by_cases h : t.isEmpty
        · simp [detectLanguage, h]
        · simp only [detectLanguage, h]
          right; right
          exact ⟨r, rfl, by simp [h]⟩

/-- Witness for C10: a network failure in both the extraction and the
model call still yields the fallback code `'en'`. -/
theorem detectLanguage_never_rejects_witness :
    detectLanguage (.error "network down") (.error "network down") = "en" :=
  (detectLanguage_never_rejects (.error "network down") (.error "network down")).1
    "network down" rfl

/-! ## Claims about the orchestrator's status sequence and result -/

/-- Claim C1: for every successful job, the published status sequence is
a strictly increasing subsequence (here: a sublist of the strictly
ordered canonical chain) of `[queued, extracting, detecting-language,
analyzing, translating, completed]`, and `translating` appears in it iff
the detected language code differs from the target display language code
`'ko'`.  (Text-mode runs skip `extracting`; a sublist may omit
elements.) -/
theorem job_status_monotone (mode : InputMode) (value : String) (jobStart jobEnd : ℚ)
    (calls : JobCalls)
    (hs : jobSucceeded (handleJobSubmit mode value jobStart jobEnd calls) = true) :
    (publishedStatuses (handleJobSubmit mode value jobStart jobEnd calls)).Sublist
      [JobStatus.queued, .extracting, .detectingLanguage, .analyzing, .translating, .completed] ∧
    (∀ lang, jobLanguage mode value calls = .ok lang →
      (JobStatus.translating ∈ publishedStatuses (handleJobSubmit mode value jobStart jobEnd calls)
        ↔ lang ≠ "ko")) := by
  rcases mode with _ | _
  · rcases hf : calls.fetchUrl with e | content
    · simp [handleJobSubmit, jobSucceeded, hf] at hs
    · rcases hd : calls.detect content with e | lang0
      · simp [handleJobSubmit, afterExtract, jobSucceeded, hf, hd] at hs
      · rcases ha : calls.analyze content with e | a
        · simp [handleJobSubmit, afterExtract, jobSucceeded, hf, hd, ha] at hs
        · by_cases hl : lang0 = "ko"
          · constructor
            · simp [handleJobSubmit, afterExtract, hf, hd, ha, hl, publishedStatuses, actionStatus]
            · intro lang hlang
              simp [jobLanguage, jobContent, hf, hd] at hlang
              subst hlang
              simp [handleJobSubmit, afterExtract, hf, hd, ha, hl, publishedStatuses, actionStatus]
          · rcases hta : calls.translateA a with e | ta
            · simp [handleJobSubmit, afterExtract, jobSucceeded, hf, hd, ha, hl, hta] at hs
            · rcases htc : calls.translateC content with e | tc
              · simp [handleJobSubmit, afterExtract, jobSucceeded, hf, hd, ha, hl, hta, htc] at hs
              · constructor
                · simp [handleJobSubmit, afterExtract, hf, hd, ha, hl, hta, htc,
                    publishedStatuses, actionStatus]
                · intro lang hlang
                  simp [jobLanguage, jobContent, hf, hd] at hlang
                  subst hlang
                  simp [handleJobSubmit, afterExtract, hf, hd, ha, hl, hta, htc,
                    publishedStatuses, actionStatus]
  · rcases hd : calls.detect (normalizeText value) with e | lang0
    · simp [handleJobSubmit, afterExtract, jobSucceeded, hd] at hs
    · rcases ha : calls.analyze (normalizeText value) with e | a
      · simp [handleJobSubmit, afterExtract, jobSucceeded, hd, ha] at hs
      · by_cases hl : lang0 = "ko"
        · constructor
          · simp [handleJobSubmit, afterExtract, hd, ha, hl, publishedStatuses, actionStatus]
          · intro lang hlang
            simp [jobLanguage, jobContent, hd] at hlang
            subst hlang
            simp [handleJobSubmit, afterExtract, hd, ha, hl, publishedStatuses, actionStatus]
        · rcases hta : calls.translateA a with e | ta
          · simp [handleJobSubmit, afterExtract, jobSucceeded, hd, ha, hl, hta] at hs
          · rcases htc : calls.translateC (normalizeText value) with e | tc
            · simp [handleJobSubmit, afterExtract, jobSucceeded, hd, ha, hl, hta, htc] at hs
            · constructor
              · simp [handleJobSubmit, afterExtract, hd, ha, hl, hta, htc,
                  publishedStatuses, actionStatus]
              · intro lang hlang
                simp [jobLanguage, jobContent, hd] at hlang
                subst hlang
                simp [handleJobSubmit, afterExtract, hd, ha, hl, hta, htc,
                  publishedStatuses, actionStatus]

/-- Fixed analysis record used by the concrete runs below. -/
def demoAnalysis : AnalysisOutput :=
  { title := "T", oneLineSummary := "S", keyPoints := ["k1"],
    keyPlayers := ["p1"], keywords := ["w1"] }

/-- Network outcomes for a fully successful run whose detected language
is `'en'` (translation required). -/
def demoCallsEn : JobCalls :=
  { fetchUrl := .ok "<p>hi</p>",
    detect := fun _ => .ok "en",
    analyze := fun _ => .ok demoAnalysis,
    translateA := fun a => .ok { a with oneLineSummary := "S-ko" },
    translateC := fun _ => .ok "<p>T-ko</p>" }

/-- Network outcomes for a fully successful run whose detected language
is the target `'ko'` (translation skipped). -/
def demoCallsKo : JobCalls :=
  { demoCallsEn with detect := fun _ => .ok "ko" }

/-- Witness for C1: a successful URL-mode run that detects `'en'`
publishes the full chain, `translating` included. -/
theorem job_status_monotone_witness :
    jobSucceeded (handleJobSubmit .url "http://x" 0 1000 demoCallsEn) = true ∧
    (publishedStatuses (handleJobSubmit .url "http://x" 0 1000 demoCallsEn)).Sublist
      [JobStatus.queued, .extracting, .detectingLanguage, .analyzing, .translating, .completed] := by
  have h1 : jobSucceeded (handleJobSubmit .url "http://x" 0 1000 demoCallsEn) = true := by
    simp [handleJobSubmit, afterExtract, jobSucceeded, demoCallsEn]
  exact ⟨h1, (job_status_monotone .url "http://x" 0 1000 demoCallsEn h1).1⟩

/-- Claim C2: for every completed job, `fullTranslation` equals the
normalized content exactly when the detected code is the target `'ko'`,
and equals the content-translation call's HTML otherwise; for text mode
the content is the locally normalized input, so a text-mode job whose
detected code is `'ko'` passes the normalized input through unchanged. -/
theorem fullTranslation_target_language (mode : InputMode) (value : String)
    (jobStart jobEnd : ℚ) (calls : JobCalls) (res : JobResult)
    (hres : Action.jobSuccess res ∈ handleJobSubmit mode value jobStart jobEnd calls)
    (content lang : String)
    (hc : jobContent mode value calls = .ok content)
    (hl : jobLanguage mode value calls = .ok lang) :
    (mode = InputMode.text → content = normalizeText value) ∧
    (lang = "ko" → res.outputs.fullTranslation = content) ∧
    (lang ≠ "ko" → ∃ t, calls.translateC content = .ok t ∧ res.outputs.fullTranslation = t) := by
  rcases mode with _ | _
  · rcases hf : calls.fetchUrl with e | content0
    · simp [jobContent, hf] at hc
    · have hcc : content0 = content := by simpa [jobContent, hf] using hc
      subst hcc
      simp [jobLanguage, jobContent, hf] at hl
      rcases hd : calls.detect content0 with e | lang0
      · rw [hd] at hl; cases hl
      · rw [hd] at hl
        injection hl with hl; subst hl
        rcases ha : calls.analyze content0 with e | a
        · simp [handleJobSubmit, afterExtract, hf, hd, ha] at hres
        · by_cases hko : lang0 = "ko"
          · simp [handleJobSubmit, afterExtract, hf, hd, ha, hko] at hres
            subst hres
            simp [mkJobResult, hko]
          · rcases hta : calls.translateA a with e | ta
            · simp [handleJobSubmit, afterExtract, hf, hd, ha, hko, hta] at hres
            · rcases htc : calls.translateC content0 with e | tc
              · simp [handleJobSubmit, afterExtract, hf, hd, ha, hko, hta, htc] at hres
              · simp [handleJobSubmit, afterExtract, hf, hd, ha, hko, hta, htc] at hres
                subst hres
                simp [mkJobResult, hko, htc]
  · simp [jobContent] at hc
    subst hc
    simp [jobLanguage, jobContent] at hl
    rcases hd : calls.detect (normalizeText value) with e | lang0
    · rw [hd] at hl; cases hl
    · rw [hd] at hl
      injection hl with hl; subst hl
      rcases ha : calls.analyze (normalizeText value) with e | a
      · simp [handleJobSubmit, afterExtract, hd, ha] at hres
      · by_cases hko : lang0 = "ko"
        · simp [handleJobSubmit, afterExtract, hd, ha, hko] at hres
          subst hres
          simp [mkJobResult, hko]
        · rcases hta : calls.translateA a with e | ta
          · simp [handleJobSubmit, afterExtract, hd, ha, hko, hta] at hres
          · rcases htc : calls.translateC (normalizeText value) with e | tc
            · simp [handleJobSubmit, afterExtract, hd, ha, hko, hta, htc] at hres
            · simp [handleJobSubmit, afterExtract, hd, ha, hko, hta, htc] at hres
              subst hres
              simp [mkJobResult, hko, htc]

/-- Witness for C2: a text-mode run that detects `'ko'` passes the
normalized content through as `fullTranslation`. -/
theorem fullTranslation_target_language_witness :
    ∃ res, Action.jobSuccess res ∈ handleJobSubmit .text "hi" 0 1000 demoCallsKo ∧
      res.outputs.fullTranslation = normalizeText "hi" := by
  refine ⟨mkJobResult demoAnalysis "" (normalizeText "hi") (normalizeText "hi") 0 1000, ?_, ?_⟩
  · simp [handleJobSubmit, afterExtract, demoCallsKo, demoCallsEn]
  · have h := fullTranslation_target_language .text "hi" 0 1000 demoCallsKo
      (mkJobResult demoAnalysis "" (normalizeText "hi") (normalizeText "hi") 0 1000)
      (by simp [handleJobSubmit, afterExtract, demoCallsKo, demoCallsEn])
      (normalizeText "hi") "ko"
      (by simp [jobContent]) (by simp [jobLanguage, jobContent, demoCallsKo, demoCallsEn])
    exact (h.2.1 rfl)

/-- Counterexample to C3 as stated: a raw-text submission never
dispatches the `extracting` status — the orchestrator only publishes it
in URL mode.  This concrete successful text-mode run publishes
`[queued, detecting-language, analyzing, completed]`. -/
theorem text_mode_skips_extracting :
    publishedStatuses (handleJobSubmit .text "hello" 0 1000 demoCallsKo) =
      [JobStatus.queued, .detectingLanguage, .analyzing, .completed] ∧
    JobStatus.extracting ∉
      publishedStatuses (handleJobSubmit .text "hello" 0 1000 demoCallsKo) := by
  have h : publishedStatuses (handleJobSubmit .text "hello" 0 1000 demoCallsKo) =
      [JobStatus.queued, .detectingLanguage, .analyzing, .completed] := by
    simp [handleJobSubmit, afterExtract, demoCallsKo, demoCallsEn,
      publishedStatuses, actionStatus]
  exact ⟨h, by rw [h]; decide⟩

/-- Claim C3 as amended: for every submission the orchestrator records
the start timestamp (the reducer state holds it after the dispatched
actions are applied); a URL-mode submission transitions
`queued → extracting` before any further step, while a raw-text
submission proceeds directly from `queued` to `detecting-language` and
never publishes `extracting`. -/
theorem job_start_records_time_and_first_transition (mode : InputMode) (value : String)
    (jobStart jobEnd : ℚ) (calls : JobCalls) :
    (applyActions (handleJobSubmit mode value jobStart jobEnd calls)).jobStartTime
        = some jobStart ∧
    (mode = InputMode.url →
      (publishedStatuses (handleJobSubmit mode value jobStart jobEnd calls)).take 2
        = [JobStatus.queued, .extracting]) ∧
    (mode = InputMode.text →
      (publishedStatuses (handleJobSubmit mode value jobStart jobEnd calls)).take 2
        = [JobStatus.queued, .detectingLanguage]) ∧
    (mode = InputMode.text →
      JobStatus.extracting ∉
        publishedStatuses (handleJobSubmit mode value jobStart jobEnd calls)) := by
  have step : ∀ mode0 value0,
      publishedStatuses (handleJobSubmit mode0 value0 jobStart jobEnd calls) =
        JobStatus.queued ::
          (match mode0 with
            | InputMode.url => JobStatus.extracting ::
                (match calls.fetchUrl with
                  | .error e => publishedStatuses [Action.jobError e]
                  | .ok content =>
                      publishedStatuses (afterExtract content value0 jobStart jobEnd calls))
            | InputMode.text =>
                publishedStatuses
                  (afterExtract (normalizeText value0) "" jobStart jobEnd calls)) := by
    intro mode0 value0
    rcases mode0 with _ | _
    · rcases hf : calls.fetchUrl with e | content <;>
        simp [handleJobSubmit, publishedStatuses, actionStatus, hf]
    · simp [handleJobSubmit, publishedStatuses, actionStatus]
  refine ⟨?_, ?_, ?_, ?_⟩
  · rcases mode with _ | _
    · rcases hf : calls.fetchUrl with e | content
      · simp [handleJobSubmit, applyActions, jobReducer, initialState, hf]
      · rcases hd : calls.detect content with e | lang0
        · simp [handleJobSubmit, afterExtract, applyActions, jobReducer, initialState, hf, hd]
        · rcases ha : calls.analyze content with e | a
          · simp [handleJobSubmit, afterExtract, applyActions, jobReducer, initialState,
              hf, hd, ha]
          · by_cases hl : lang0 = "ko"
            · simp [handleJobSubmit, afterExtract, applyActions, jobReducer, initialState,
                hf, hd, ha, hl]
            · rcases hta : calls.translateA a with e | ta
              · simp [handleJobSubmit, afterExtract, applyActions, jobReducer, initialState,
                  hf, hd, ha, hl, hta]
              · rcases htc : calls.translateC content with e | tc <;>
                  simp [handleJobSubmit, afterExtract, applyActions, jobReducer, initialState,
                    hf, hd, ha, hl, hta, htc]
    · rcases hd : calls.detect (normalizeText value) with e | lang0
      · simp [handleJobSubmit, afterExtract, applyActions, jobReducer, initialState, hd]
      · rcases ha : calls.analyze (normalizeText value) with e | a
        · simp [handleJobSubmit, afterExtract, applyActions, jobReducer, initialState, hd, ha]
        · by_cases hl : lang0 = "ko"
          · simp [handleJobSubmit, afterExtract, applyActions, jobReducer, initialState,
              hd, ha, hl]
          · rcases hta : calls.translateA a with e | ta
            · simp [handleJobSubmit, afterExtract, applyActions, jobReducer, initialState,
                hd, ha, hl, hta]
            · rcases htc : calls.translateC (normalizeText value) with e | tc <;>
                simp [handleJobSubmit, afterExtract, applyActions, jobReducer, initialState,
                  hd, ha, hl, hta, htc]
  · rintro rfl
    rw [step InputMode.url value]
    simp
  · rintro rfl
    rw [step InputMode.text value]
    simp [afterExtract]
    rcases hd : calls.detect (normalizeText value) with e | lang0 <;>
      simp [publishedStatuses, actionStatus]
  · rintro rfl
    have hne : JobStatus.extracting ∉
        publishedStatuses (afterExtract (normalizeText value) "" jobStart jobEnd calls) := by
      rcases hd : calls.detect (normalizeText value) with e | lang0
      · simp [afterExtract, hd, publishedStatuses, actionStatus]
      · rcases ha : calls.analyze (normalizeText value) with e | a
        · simp [afterExtract, hd, ha, publishedStatuses, actionStatus]
        · by_cases hl : lang0 = "ko"
          · simp [afterExtract, hd, ha, hl, publishedStatuses, actionStatus]
          · rcases hta : calls.translateA a with e | ta
            · simp [afterExtract, hd, ha, hl, hta, publishedStatuses, actionStatus]
            · rcases htc : calls.translateC (normalizeText value) with e | tc <;>
                simp [afterExtract, hd, ha, hl, hta, htc, publishedStatuses, actionStatus]
    rw [step InputMode.text value]
    simp only [List.mem_cons, not_or]
    exact ⟨by simp, hne⟩

/-- Witness for the amended C3 at a concrete text-mode run. -/
theorem job_start_records_time_witness :
    (applyActions (handleJobSubmit .text "hi" 0 1000 demoCallsKo)).jobStartTime = some 0 ∧
    (publishedStatuses (handleJobSubmit .text "hi" 0 1000 demoCallsKo)).take 2 =
      [JobStatus.queued, .detectingLanguage] ∧
    JobStatus.extracting ∉ publishedStatuses (handleJobSubmit .text "hi" 0 1000 demoCallsKo) :=
  ⟨(job_start_records_time_and_first_transition .text "hi" 0 1000 demoCallsKo).1,
   (job_start_records_time_and_first_transition .text "hi" 0 1000 demoCallsKo).2.2.1 rfl,
   (job_start_records_time_and_first_transition .text "hi" 0 1000 demoCallsKo).2.2.2 rfl⟩

/-! ## Claims about the analysis client -/

/-- Parsed JSON object holding only a `title`, as `JSON.parse` would
produce for the response below: four of the five required analysis
fields are absent. -/
def titleOnlyObj : Json := Json.obj [("title", Json.str "t")]

/-- Parse oracle that maps the title-only response text to its parsed
object (standing for `JSON.parse` on that one input). -/
def titleOnlyParse : String → Option Json :=
  fun s => if s = "\x7b\"title\":\"t\"\x7d" then some titleOnlyObj else none

/-- Counterexample to C4 as stated: the proxied `performAnalysis`
performs no required-field check.  On a parseable response whose object
lacks `oneLineSummary` (and the other three fields), the direct-call
variant fails, but the proxied variant succeeds and returns the
incomplete object. -/
theorem proxy_analysis_missing_fields :
    fieldTruthy titleOnlyObj "oneLineSummary" = false ∧
    performAnalysis titleOnlyParse "\x7b\"title\":\"t\"\x7d" =
      .error "AI 분석 실패: AI analysis response is missing required fields." ∧
    proxyPerformAnalysis titleOnlyParse "\x7b\"title\":\"t\"\x7d" = .ok titleOnlyObj := by
  have hstrip : stripMarkdown "\x7b\"title\":\"t\"\x7d" = "\x7b\"title\":\"t\"\x7d" := by
    simp [stripMarkdown, stripMarkdownL, jsTrim, fenceInner, isSpaceChar]
  refine ⟨rfl, ?_, ?_⟩
  · rw [performAnalysis.eq_def, performAnalysisCore.eq_def, hstrip]
    simp [titleOnlyParse, titleOnlyObj, requiredFieldsOk, fieldTruthy, jsonGet, jsTruthy,
      includesStr]
    decide
  · rw [proxyPerformAnalysis.eq_def, hstrip]
    simp [titleOnlyParse]

/-- Claim C4 as amended: the direct-call `performAnalysis` fails when
the fence-stripped response is unparseable and when any of the five
required fields is absent or falsy, and otherwise returns the parsed
object unchanged; the proxied variant fails only on unparseable input
and returns the parsed object unchanged with no field check (schema
enforcement is left to the provider). -/
theorem performAnalysis_validation (parseJson : String → Option Json) (responseText : String) :
    (parseJson (stripMarkdown responseText) = none →
      performAnalysis parseJson responseText =
        .error "AI 분석 실패: AI가 유효한 JSON을 반환하지 않았습니다." ∧
      proxyPerformAnalysis parseJson responseText = .error "SyntaxError") ∧
    (∀ j, parseJson (stripMarkdown responseText) = some j →
      (requiredFieldsOk j = false →
        performAnalysis parseJson responseText =
          .error "AI 분석 실패: AI analysis response is missing required fields." ∧
        proxyPerformAnalysis parseJson responseText = .ok j) ∧
      (requiredFieldsOk j = true →
        performAnalysis parseJson responseText = .ok j ∧
        proxyPerformAnalysis parseJson responseText = .ok j)) := by
  constructor
  · intro hp
    constructor
    · rw [performAnalysis.eq_def, performAnalysisCore.eq_def, hp]
      simp [includesStr]
      decide
    · rw [proxyPerformAnalysis.eq_def, hp]
  · intro j hp
    constructor
    · intro hreq
      constructor
      · rw [performAnalysis.eq_def, performAnalysisCore.eq_def, hp]
        simp [hreq, includesStr]
        decide
      · rw [proxyPerformAnalysis.eq_def, hp]
    · intro hreq
      constructor
      · rw [performAnalysis.eq_def, performAnalysisCore.eq_def, hp]
        simp [hreq]
      · rw [proxyPerformAnalysis.eq_def, hp]

/-- Parsed JSON object with all five required fields, used by the C4
witness; the response text is wrapped in a fenced code block, which the
client strips before parsing. -/
def fullAnalysisObj : Json :=
  Json.obj [("title", Json.str "t"), ("oneLineSummary", Json.str "s"),
    ("keyPoints", Json.arr [Json.str "k"]), ("keyPlayers", Json.arr [Json.str "p"]),
    ("keywords", Json.arr [Json.str "w"])]

/-- Parse oracle mapping the unfenced JSON text to `fullAnalysisObj`. -/
def fullAnalysisParse : String → Option Json :=
  fun s => if s = "\x7b\"ok\":1\x7d" then some fullAnalysisObj else none

/-! ## Claim about the translation client's field handling -/

/-- Claim C6: `translateAnalysis` (both variants share the merge
`{ ...analysis, ...translatedContent }` verbatim) preserves the original
title and the exact field structure, replacing only the four non-title
fields with the parsed response's values.  The response is
schema-constrained, which the hypotheses record: the parsed object's
keys are drawn from the four non-title field names.  The conclusion
gives the exact key sequence of the merge, the unchanged title, and
each translated value. -/
theorem translateAnalysis_preserves (parseJson : String → Option Json)
    (analysis : AnalysisOutput) (responseText : String) (fields : List (String × Json))
    (hp : parseJson (stripMarkdown responseText) = some (Json.obj fields))
    (hsub : ∀ f ∈ fields,
      f.1 = "oneLineSummary" ∨ f.1 = "keyPoints" ∨ f.1 = "keyPlayers" ∨ f.1 = "keywords") :
    translateAnalysis parseJson analysis responseText =
      .ok (jsMerge (analysisToObj analysis) fields) ∧
    (jsMerge (analysisToObj analysis) fields).map Prod.fst =
      ["title", "oneLineSummary", "keyPoints", "keyPlayers", "keywords"] ∧
    jsonGet (Json.obj (jsMerge (analysisToObj analysis) fields)) "title" =
      some (Json.str analysis.title) ∧
    (∀ k v, fields.find? (fun g => g.1 = k) = some (k, v) →
      jsonGet (Json.obj (jsMerge (analysisToObj analysis) fields)) k = some v) := by
  have hnotitle : fields.find? (fun g => g.1 = "title") = none := by
    rw [List.find?_eq_none]
    intro x hx hpx
    rcases hsub x hx with h | h | h | h <;> simp [h] at hpx
  have hfilter : fields.filter
      (fun g => ((analysisToObj analysis).find? (fun f => f.1 = g.1)).isNone) = [] := by
    rw [List.filter_eq_nil_iff]
    intro g hg
    rcases hsub g hg with h | h | h | h <;>
      simp [analysisToObj, List.find?, h]
  refine ⟨?_, ?_, ?_, ?_⟩
  · simp [translateAnalysis, hp, spreadProps]
  · simp [jsMerge, hfilter, analysisToObj]
    intro a b hab h1 h2 h3 h4
    rcases hsub (a, b) hab with h | h | h | h <;> simp_all
  · simp [jsMerge, hfilter, analysisToObj, jsonGet, hnotitle]
  · intro k v hkv
    have hk : k = "oneLineSummary" ∨ k = "keyPoints" ∨ k = "keyPlayers" ∨ k = "keywords" := by
      have hmem := List.mem_of_find?_eq_some hkv
      simpa using hsub (k, v) hmem
    rcases hk with h | h | h | h <;> subst h <;>
      simp [jsMerge, hfilter, analysisToObj, jsonGet, hkv]

/-- Schema-shaped parsed response used by the C6 witness. -/
def demoTranslatedFields : List (String × Json) :=
  [("oneLineSummary", Json.str "s-ko"), ("keyPoints", Json.arr [Json.str "k-ko"]),
   ("keyPlayers", Json.arr [Json.str "p-ko"]), ("keywords", Json.arr [Json.str "w-ko"])]

/-- Parse oracle mapping one concrete response to the parsed fields. -/
def demoTranslateParse : String → Option Json :=
  fun s => if s = "\x7b\"tr\":1\x7d" then some (Json.obj demoTranslatedFields) else none

/-- Witness for C6 at a concrete analysis and response: the merge keeps
the original title `"T"` and the five-key structure. -/
theorem translateAnalysis_preserves_witness :
    translateAnalysis demoTranslateParse demoAnalysis "\x7b\"tr\":1\x7d" =
      .ok (jsMerge (analysisToObj demoAnalysis) demoTranslatedFields) ∧
    jsonGet (Json.obj (jsMerge (analysisToObj demoAnalysis) demoTranslatedFields)) "title" =
      some (Json.str demoAnalysis.title) := by
  have hp : demoTranslateParse (stripMarkdown "\x7b\"tr\":1\x7d") =
      some (Json.obj demoTranslatedFields) := by
    have : stripMarkdown "\x7b\"tr\":1\x7d" = "\x7b\"tr\":1\x7d" := by decide
    rw [this]
    simp [demoTranslateParse]
  have hsub : ∀ f ∈ demoTranslatedFields,
      f.1 = "oneLineSummary" ∨ f.1 = "keyPoints" ∨ f.1 = "keyPlayers" ∨ f.1 = "keywords" := by
    intro f hf
    simp [demoTranslatedFields] at hf
    rcases hf with rfl | rfl | rfl | rfl <;> simp
  have h := translateAnalysis_preserves demoTranslateParse demoAnalysis "\x7b\"tr\":1\x7d"
    demoTranslatedFields hp hsub
  exact ⟨h.1, h.2.2.1⟩

/-- Witness for the amended C4: a response wrapped in a fenced code
block whose JSON carries all five required fields is returned parsed and
unchanged by both variants. -/
theorem performAnalysis_validation_witness :
    fullAnalysisParse (stripMarkdown "```json\n\x7b\"ok\":1\x7d\n```") = some fullAnalysisObj ∧
    requiredFieldsOk fullAnalysisObj = true ∧
    performAnalysis fullAnalysisParse "```json\n\x7b\"ok\":1\x7d\n```" = .ok fullAnalysisObj ∧
    proxyPerformAnalysis fullAnalysisParse "```json\n\x7b\"ok\":1\x7d\n```" =
      .ok fullAnalysisObj := by
  have hp : fullAnalysisParse (stripMarkdown "```json\n\x7b\"ok\":1\x7d\n```") =
      some fullAnalysisObj := by
    have : stripMarkdown "```json\n\x7b\"ok\":1\x7d\n```" = "\x7b\"ok\":1\x7d" := by decide
    rw [this]
    simp [fullAnalysisParse]
  have hr : requiredFieldsOk fullAnalysisObj = true := rfl
  have h := (performAnalysis_validation fullAnalysisParse "```json\n\x7b\"ok\":1\x7d\n```").2
    fullAnalysisObj hp
  exact ⟨hp, hr, (h.2 hr).1, (h.2 hr).2⟩

/-! ## Claim about the fence round trip -/

theorem dropWhile_eq_self_of_head (p : Char → Bool) (l : List Char)
    (h : ∀ c ∈ l.head?, p c = false) : l.dropWhile p = l := by
  cases l with
  | nil => rfl
  | cons c rest =>
    have hc := h c (by simp)
    simp [List.dropWhile_cons, hc]

theorem jsTrim_eq_self (l : List Char)
    (h1 : ∀ c ∈ l.head?, isSpaceChar c = false)
    (h2 : ∀ c ∈ l.getLast?, isSpaceChar c = false) :
    jsTrim l = l := by
  unfold jsTrim
  rw [dropWhile_eq_self_of_head _ _ h1]
  rw [dropWhile_eq_self_of_head _ _ (by rw [List.head?_reverse]; exact h2)]
  exact List.reverse_reverse l

theorem all_space_false_of_getLast (l : List Char) (hne : l ≠ [])
    (h : ∀ c ∈ l.getLast?, isSpaceChar c = false) :
    l.all isSpaceChar = false := by
  rcases hl : l.getLast? with _ | d
  · simp [List.getLast?_eq_none_iff] at hl
    exact absurd hl hne
  · have hmem : d ∈ l := List.mem_of_mem_getLast? hl
    have hd := h d (by rw [hl]; simp)
    rcases ha : l.all isSpaceChar with _ | _
    · rfl
    · have := (List.all_eq_true.mp ha) d hmem
      rw [hd] at this
      cases this

theorem tailFenceOk_append (y : List Char) :
    tailFenceOk (y ++ ['`', '`', '`']) = y.all isSpaceChar := by
  unfold tailFenceOk
  have h1 : (y ++ ['`', '`', '`']).reverse.take 3 = ['`', '`', '`'] := by
    rw [List.reverse_append]
    rfl
  have h2 : (y ++ ['`', '`', '`']).take ((y ++ ['`', '`', '`']).length - 3) = y := by
    have h3 : (y ++ ['`', '`', '`']).length - 3 = y.length := by simp
    rw [h3]
    exact List.take_left y _
  rw [h1, h2]
  simp

/-- The lazy capture search over `y ++ "```"` stops exactly at the final
fence when no suffix of `y` is pure whitespace (guaranteed here by the
last character of `y` not being whitespace): the `$` anchor forces the
group to cover all of `y`. -/
theorem findLazy_append_fence (g y : List Char)
    (h : ∀ c ∈ y.getLast?, isSpaceChar c = false) :
    findLazy g (y ++ ['`', '`', '`']) = some (g ++ y) := by
  induction y generalizing g with
  | nil => rw [findLazy.eq_def]; simp [tailFenceOk]
  | cons d y' ih =>
    rw [findLazy.eq_def]
    have hok : tailFenceOk ((d :: y') ++ ['`', '`', '`']) = false := by
      rw [tailFenceOk_append]
      exact all_space_false_of_getLast _ (by simp) h
    rw [hok]
    simp only [Bool.false_eq_true, if_false, List.cons_append]
    have hy' : ∀ c ∈ y'.getLast?, isSpaceChar c = false := by
      rcases y' with _ | ⟨e, y''⟩
      · simp
      · intro c hc
        apply h
        rwa [List.getLast?_cons_cons]
    rw [ih (g ++ [d]) hy']
    simp

theorem getLast_fence (l : List Char) : (l ++ ['`', '`', '`']).getLast? = some '`' := by
  rw [List.getLast?_append]
  rfl

/-- Counterexample to C7 as stated: the regex treats a leading word as
an optional language identifier, so wrapping `"hello world"` (which
contains no fence delimiter) in a fence and stripping returns
`"world"`, not the original text. -/
theorem stripMarkdown_roundtrip_fails :
    includesStr "hello world" "```" = false ∧
    stripMarkdown ("```" ++ "hello world" ++ "```") = "world" ∧
    "world" ≠ "hello world" := by
  refine ⟨by decide, by decide, by decide⟩

/-- Claim C7 as amended: the round trip
`stripMarkdown("```" + x + "```") = x` holds for every `x` that contains
no fence delimiter, is non-empty, neither starts nor ends with
whitespace, and does not start with a word character (a leading word is
consumed as the fence's language identifier, and surrounding whitespace
is consumed by the regex and the final trim). -/
theorem stripMarkdown_roundtrip (x : String) (c : Char) (cs : List Char)
    (hx : x.data = c :: cs)
    (hw : isWordChar c = false) (hsp : isSpaceChar c = false)
    (hlast : ∀ d ∈ x.data.getLast?, isSpaceChar d = false)
    (hfence : includesStr x "```" = false) :
    stripMarkdown ("```" ++ x ++ "```") = x := by
  have hfd : "```".data = ['`', '`', '`'] := rfl
  have hdata : ("```" ++ x ++ "```").data = '`' :: '`' :: '`' :: (x.data ++ ['`', '`', '`']) := by
    simp [String.data_append, hfd]
  have htrim : jsTrim ('`' :: '`' :: '`' :: (x.data ++ ['`', '`', '`'])) =
      '`' :: '`' :: '`' :: (x.data ++ ['`', '`', '`']) := by
    apply jsTrim_eq_self
    · intro d hd
      simp at hd
      subst hd
      decide
    · intro d hd
      have h5 : ('`' :: '`' :: '`' :: (x.data ++ ['`', '`', '`'])).getLast? =
          ((['`', '`', '`'] ++ x.data) ++ ['`', '`', '`']).getLast? := by
        simp
      rw [h5, getLast_fence] at hd
      simp at hd
      subst hd
      decide
  have hwx : (x.data ++ ['`', '`', '`']).takeWhile isWordChar = [] := by
    rw [hx]
    simp [List.takeWhile_cons, hw]
  have hsx : (x.data ++ ['`', '`', '`']).takeWhile isSpaceChar = [] := by
    rw [hx]
    simp [List.takeWhile_cons, hsp]
  have hlazy : findLazy [] (x.data ++ ['`', '`', '`']) = some x.data :=
    findLazy_append_fence [] x.data hlast
  have hinner : fenceInner ('`' :: '`' :: '`' :: (x.data ++ ['`', '`', '`'])) =
      some x.data := by
    rw [fenceInner]
    rw [hwx]
    simp only [List.length_nil]
    rw [tryFenceFrom]
    rw [hsx]
    simp only [List.length_nil]
    rw [trySpacesFrom]
    exact hlazy
  have hxtrim : jsTrim x.data = x.data := by
    apply jsTrim_eq_self
    · intro d hd
      rw [hx] at hd
      simp at hd
      subst hd
      exact hsp
    · exact hlast
  rw [stripMarkdown, stripMarkdownL, hdata, htrim, hinner]
  simp only [hx, List.isEmpty_cons, if_false]
  rw [← hx, hxtrim]
  cases x
  rfl

/-- Witness for the amended C7: the text `"-a b-"` (no fence delimiter,
trimmed, starting with a non-word character) round-trips unchanged. -/
theorem stripMarkdown_roundtrip_witness :
    stripMarkdown ("```" ++ "-a b-" ++ "```") = "-a b-" :=
  stripMarkdown_roundtrip "-a b-" '-' ['a', ' ', 'b', '-'] rfl (by decide) (by decide)
    (by intro d hd; simp at hd; subst hd; decide) (by decide)

/-! ## Claim about raw-text normalization -/

theorem splitLinesList_newline (rest : List Char) :
    splitLinesList ('\n' :: rest) = [] :: splitLinesList rest := rfl

theorem splitLinesList_cons_ne (c : Char) (rest : List Char) (h : ¬c = '\n') :
    splitLinesList (c :: rest) = consHead c (splitLinesList rest) := by
  rw [splitLinesList.eq_def]
  split
  · simp at *
  · rename_i heq
    injection heq with h1 h2
    exact absurd h1 h
  · rename_i heq
    injection heq with h1 h2
    rw [h1, h2]

theorem filter_splitLines_dropNewlines (r : List Char) :
    (splitLinesList (dropNewlines r)).filter (fun s => !s.isEmpty) =
      (splitLinesList r).filter (fun s => !s.isEmpty) := by
  induction r with
  | nil => rfl
  | cons c r' ih =>
    by_cases h : c = '\n'
    · subst h
      rw [dropNewlines]
      simp only [if_pos rfl]
      rw [splitLinesList_newline]
      simp only [List.filter_cons]
      simp [ih]
    · rw [dropNewlines]
      simp [h]

/-- First line of the first `\n{2,}`-block equals the first line of the
whole input. -/
theorem headI_lines_headI_blocks (l : List Char) :
    (splitLinesList ((splitBlocksList l).headI)).headI = (splitLinesList l).headI := by
  induction l using splitBlocksList.induct with
  | case1 => simp [splitBlocksList, splitLinesList]
  | case2 rest ih =>
    rw [splitBlocksList]
    simp [splitLinesList_newline, splitLinesList]
  | case3 c rest h1 ih =>
    rw [splitBlocksList_cons c rest (fun h => h.2.elim (fun r' hr => h1 r' h.1 hr))]
    rcases hsb : splitBlocksList rest with _ | ⟨h, t⟩
    · exact absurd hsb (splitBlocksList_ne_nil rest)
    · by_cases hc : c = '\n'
      · subst hc
        simp [consHead, splitLinesList_newline]
      · rw [hsb] at ih
        simp only [List.headI] at ih
        simp only [consHead, List.headI]
        rw [splitLinesList_cons_ne c h hc, splitLinesList_cons_ne c rest hc]
        rcases hlh : splitLinesList h with _ | ⟨h2, t2⟩
        · exact absurd hlh (splitLinesList_ne_nil h)
        · rcases hlr : splitLinesList rest with _ | ⟨h3, t3⟩
          · exact absurd hlr (splitLinesList_ne_nil rest)
          · rw [hlh, hlr] at ih
            simp only [List.headI] at ih
            subst ih
            simp [consHead]

/-- No non-empty line is lost or invented by the block split: the lines
of the blocks, empties filtered out, are exactly the non-empty lines of
the input. -/
theorem flatMap_lines_blocks (l : List Char) :
    ((splitBlocksList l).flatMap splitLinesList).filter (fun s => !s.isEmpty) =
      (splitLinesList l).filter (fun s => !s.isEmpty) := by
  induction l using splitBlocksList.induct with
  | case1 => simp [splitBlocksList, splitLinesList]
  | case2 rest ih =>
    rw [splitBlocksList]
    simp only [List.flatMap_cons]
    rw [show splitLinesList ([] : List Char) = [[]] from rfl]
    rw [show splitLinesList ('\n' :: '\n' :: rest) = [] :: [] :: splitLinesList rest from rfl]
    simp only [List.filter_append, List.filter_cons, List.isEmpty_nil, Bool.not_true,
      Bool.false_eq_true, if_false, List.filter_nil, List.nil_append]
    rw [ih, filter_splitLines_dropNewlines]
  | case3 c rest h1 ih =>
    rw [splitBlocksList_cons c rest (fun h => h.2.elim (fun r' hr => h1 r' h.1 hr))]
    rcases hsb : splitBlocksList rest with _ | ⟨h, t⟩
    · exact absurd hsb (splitBlocksList_ne_nil rest)
    · rw [hsb] at ih
      simp only [List.flatMap_cons] at ih
      by_cases hc : c = '\n'
      · subst hc
        simp only [consHead, List.flatMap_cons]
        rw [show splitLinesList ('\n' :: h) = [] :: splitLinesList h from rfl]
        rw [show splitLinesList ('\n' :: rest) = [] :: splitLinesList rest from rfl]
        simp only [List.cons_append, List.filter_cons, List.isEmpty_nil, Bool.not_true,
          Bool.false_eq_true, if_false]
        exact ih
      · have hfl := headI_lines_headI_blocks rest
        rw [hsb] at hfl
        simp only [List.headI] at hfl
        simp only [consHead, List.flatMap_cons]
        rw [splitLinesList_cons_ne c h hc, splitLinesList_cons_ne c rest hc]
        rcases hlh : splitLinesList h with _ | ⟨h2, t2⟩
        · exact absurd hlh (splitLinesList_ne_nil h)
        · rcases hlr : splitLinesList rest with _ | ⟨h3, t3⟩
          · exact absurd hlr (splitLinesList_ne_nil rest)
          · rw [hlh, hlr] at hfl
            simp only [List.headI] at hfl
            subst hfl
            rw [hlh, hlr] at ih
            simp only [consHead, List.cons_append, List.filter_cons] at ih ⊢
            rw [show (c :: h2).isEmpty = false from rfl]
            simp only [Bool.not_false, if_pos]
            by_cases h2e : h2.isEmpty
            · simp only [h2e, Bool.not_true, Bool.false_eq_true, if_false] at ih
              rw [ih]
            · simp only [Bool.not_eq_true] at h2e
              simp only [h2e, Bool.not_false, if_pos] at ih
              injection ih with _ ih2
              rw [ih2]

theorem newline_not_mem_splitLines (l : List Char) : ∀ p ∈ splitLinesList l, '\n' ∉ p := by
  induction l with
  | nil =>
    intro p hp
    simp [splitLinesList] at hp
    subst hp
    simp
  | cons c rest ih =>
    by_cases hc : c = '\n'
    · subst hc
      rw [splitLinesList_newline]
      intro p hp
      rcases List.mem_cons.mp hp with rfl | hp2
      · simp
      · exact ih p hp2
    · rw [splitLinesList_cons_ne c rest hc]
      rcases hlr : splitLinesList rest with _ | ⟨h, t⟩
      · exact absurd hlr (splitLinesList_ne_nil rest)
      · intro p hp
        simp only [consHead] at hp
        rcases List.mem_cons.mp hp with rfl | hp2
        · intro hmem
          rcases List.mem_cons.mp hmem with heq | hmem2
          · exact hc heq.symm
          · exact ih h (by rw [hlr]; simp) hmem2
        · exact ih p (by rw [hlr]; exact List.mem_cons_of_mem h hp2)

theorem newline_not_mem_intercalate (pieces : List (List Char))
    (h : ∀ p ∈ pieces, '\n' ∉ p) :
    '\n' ∉ List.intercalate "<br>".data pieces := by
  induction pieces with
  | nil => simp [List.intercalate]
  | cons p rest ih =>
    rcases rest with _ | ⟨q, rest'⟩
    · simp [List.intercalate]
      exact h p (by simp)
    · rw [show List.intercalate "<br>".data (p :: q :: rest') =
        p ++ "<br>".data ++ List.intercalate "<br>".data (q :: rest') from by
          simp [List.intercalate, List.intersperse]]
      intro hmem
      rcases List.mem_append.mp hmem with hmem1 | hmem2
      · rcases List.mem_append.mp hmem1 with hp1 | hsep
        · exact h p (by simp) hp1
        · simp at hsep
      · exact ih (fun r hr => h r (List.mem_cons_of_mem p hr)) hmem2

theorem newline_not_mem_wrapBlock (b : List Char) : '\n' ∉ wrapBlock b := by
  unfold wrapBlock
  intro hmem
  rcases List.mem_append.mp hmem with hmem1 | htail
  · rcases List.mem_append.mp hmem1 with hopen | hmid
    · simp at hopen
    · exact newline_not_mem_intercalate (splitLinesList b) (newline_not_mem_splitLines b) hmid
  · simp at htail

theorem normalizeText_no_newline (v : String) :
    ∀ ch ∈ (normalizeText v).data, ch ≠ '\n' := by
  intro ch hch
  rintro rfl
  unfold normalizeText at hch
  rw [show (String.mk (((splitBlocksList v.data).map wrapBlock).flatten)).data =
    ((splitBlocksList v.data).map wrapBlock).flatten from rfl] at hch
  rcases List.mem_flatten.mp hch with ⟨w, hw, hmem⟩
  rcases List.mem_map.mp hw with ⟨b, hb, rfl⟩
  exact newline_not_mem_wrapBlock b hmem

/-- Modelled from the spec: the blank-line-separated blocks of a
raw-text input — the non-empty segments of the split at blank-line runs.
The code's own split (`value.split(/\n{2,}/)`) also yields empty
segments for leading or trailing blank-line runs; the spec's "N
blank-line-separated blocks" counts only the non-empty ones. -/
def blankSeparatedBlocks (value : String) : List String :=
  ((splitBlocksList value.data).filter (fun b => !b.isEmpty)).map (fun b => String.mk b)

/-- Counterexample to C8 as stated: the input `"\n\nhello"` contains one
blank-line-separated block, but the normalization emits two paragraph
wrappers — the leading blank-line run produces an empty `<p></p>`. -/
theorem raw_text_extra_wrapper :
    (paragraphWrappers "\n\nhello").length = 2 ∧
    (blankSeparatedBlocks "\n\nhello").length = 1 ∧
    normalizeText "\n\nhello" = "<p></p><p>hello</p>" := by
  have hb : splitBlocksList "\n\nhello".data = [[], ['h', 'e', 'l', 'l', 'o']] := by
    simp [splitBlocksList, dropNewlines, consHead]
  refine ⟨?_, ?_, ?_⟩
  · simp [paragraphWrappers, hb]
  · simp [blankSeparatedBlocks, hb]
  · simp only [normalizeText, hb]
    decide

/-- Claim C8 as amended: the raw-text normalization emits exactly one
paragraph wrapper per segment of the `\n{2,}` split — which equals the
number of blank-line-separated blocks whenever no segment is empty,
i.e. when the input has no leading or trailing blank-line run; every
newline inside a block becomes a `<br>` (the output contains no newline
character); and no non-empty line of the input is lost or invented: the
lines distributed into the wrappers, empties filtered out, are exactly
the non-empty lines of the input. -/
theorem raw_text_normalization (v : String) :
    (paragraphWrappers v).length = (splitBlocksList v.data).length ∧
    ((∀ b ∈ splitBlocksList v.data, b ≠ []) →
      (paragraphWrappers v).length = (blankSeparatedBlocks v).length) ∧
    (∀ ch ∈ (normalizeText v).data, ch ≠ '\n') ∧
    ((splitBlocksList v.data).flatMap splitLinesList).filter (fun s => !s.isEmpty) =
      (splitLinesList v.data).filter (fun s => !s.isEmpty) := by
  refine ⟨?_, ?_, normalizeText_no_newline v, flatMap_lines_blocks v.data⟩
  · simp [paragraphWrappers]
  · intro hne
    have hfilter : (splitBlocksList v.data).filter (fun b => !b.isEmpty) =
        splitBlocksList v.data := by
      rw [List.filter_eq_self]
      intro b hbm
      have := hne b hbm
      simpa [List.isEmpty_iff] using this
    simp [paragraphWrappers, blankSeparatedBlocks, hfilter]

/-- Witness for the amended C8 at `"a\nb\n\nc"`: two blocks, neither
empty, so two wrappers and two blocks agree. -/
theorem raw_text_normalization_witness :
    (∀ b ∈ splitBlocksList "a\nb\n\nc".data, b ≠ []) ∧
    (paragraphWrappers "a\nb\n\nc").length = (blankSeparatedBlocks "a\nb\n\nc").length := by
  have hb : splitBlocksList "a\nb\n\nc".data = [['a', '\n', 'b'], ['c']] := by
    simp [splitBlocksList, dropNewlines, consHead]
  have hne : ∀ b ∈ splitBlocksList "a\nb\n\nc".data, b ≠ [] := by
    rw [hb]
    intro b hbm
    simp at hbm
    rcases hbm with rfl | rfl <;> simp
  exact ⟨hne, (raw_text_normalization "a\nb\n\nc").2.1 hne⟩

end LinguaScope
